import Mathlib

/-!
Shallow embedding of `scripts/shoreman.sh`, a Procfile-style process
supervisor, together with proofs about its manifest parsing, log
truncation, environment loading, lifecycle guard and exit-code
aggregation.  Each definition cites the shell lines it models.
-/

namespace Shoreman

/-- Default-IFS whitespace inside a single line (space and tab): the
characters plain `read` strips from both ends of each line it reads. -/
def isIFSSpace (c : Char) : Bool := c == ' ' || c == '\t'

/-- Whitespace for the glob character class in
`command="${line#*:[[:space:]]}"` (POSIX `[[:space:]]`, restricted to
characters that can occur inside one line). -/
def isPatSpace (c : Char) : Bool :=
  c == ' ' || c == '\t' || c == '\r' || c == Char.ofNat 11 || c == Char.ofNat 12

/-- Remove trailing IFS whitespace. -/
def dropTrailing (l : List Char) : List Char := (l.reverse.dropWhile isIFSSpace).reverse

/-- Strip leading and trailing IFS whitespace from plain characters. -/
def stripIFS (raw : List Char) : List Char := dropTrailing (raw.dropWhile isIFSSpace)

/-- Plain `read`'s backslash processing, one character at a time; the flag
records a pending backslash.  A backslash escapes the following character,
which is kept literal and marked escaped, and a backslash at the end of the
physical line asks `read` to join the next line (continuation flag
`true`). -/
def readCharsAux : Bool → List Char → List (Char × Bool) × Bool
  | esc, [] => ([], esc)
  | true, c :: rest => ((c, true) :: (readCharsAux false rest).1, (readCharsAux false rest).2)
  | false, c :: rest =>
    if c == '\\' then readCharsAux true rest
    else ((c, false) :: (readCharsAux false rest).1, (readCharsAux false rest).2)

/-- One physical line after `read`'s escape removal: the remaining
characters, each marked escaped or not, plus whether the line ends in a
line continuation. -/
def readChars (raw : List Char) : List (Char × Bool) × Bool := readCharsAux false raw

/-- Unescaped IFS whitespace: what `read` trims from the ends of `$line`
(an escaped space is literal and survives the trim). -/
def isUnescapedSpace (p : Char × Bool) : Bool := isIFSSpace p.1 && !p.2

/-- The value `read` assigns from processed characters: unescaped IFS
whitespace is stripped from both ends, then the escape marks are
dropped. -/
def trimContent (l : List (Char × Bool)) : List Char :=
  (((l.dropWhile isUnescapedSpace).reverse.dropWhile isUnescapedSpace).reverse).map Prod.fst

/-- The value of `$line` after `read line` (line 117) consumes one physical
line that is not continued further: escape removal, then trimming of
unescaped whitespace. -/
def readLine (raw : List Char) : List Char := trimContent (readChars raw).1

/-- The logical lines `read` produces from the stream of physical lines: a
physical line ending in an unescaped backslash is joined with the logical
line that follows it. -/
def logicalLines : List (List Char) → List (List (Char × Bool))
  | [] => []
  | raw :: rest =>
    if (readChars raw).2 then
      match logicalLines rest with
      | [] => [(readChars raw).1]
      | l2 :: more => ((readChars raw).1 ++ l2) :: more
    else (readChars raw).1 :: logicalLines rest

/-- Line 118, `if [[ -z "$line" ]] || [[ "$line" == \#* ]]; then continue; fi`,
applied to the post-`read` line: skip when it is empty or begins with `#`. -/
def skipLine (l : List Char) : Bool := l.isEmpty || l.head? == some '#'

/-- Line 119, `name="${line%%:*}"`: everything before the first colon
(the whole line when there is no colon). -/
def nameOf (l : List Char) : List Char := l.takeWhile (fun c => !(c == ':'))

/-- Scan for the first colon immediately followed by a `[[:space:]]`
character; return what follows that pair. -/
def afterColonSpace : List Char → Option (List Char)
  | [] => none
  | c :: rest =>
    if c == ':' then
      match rest with
      | [] => none
      | d :: rest2 => if isPatSpace d then some rest2 else afterColonSpace rest
    else afterColonSpace rest

/-- Line 120, `command="${line#*:[[:space:]]}"`: the shortest prefix ending
in a colon followed by a whitespace character is removed; when no such pair
exists the line is left unchanged. -/
def commandOf (l : List Char) : List Char := (afterColonSpace l).getD l

/-- One parsed Procfile entry (the spec's ManifestEntry). -/
structure Entry where
  name : List Char
  command : List Char
  index : Nat
deriving DecidableEq

/-- Lines 117–124 of `run_procfile`, over the successive values of `$line`:
skip blank and `#` lines, start the index at 1 and advance it only on lines
that yield an entry. -/
def procEntriesLoop : Nat → List (List Char) → List Entry
  | _, [] => []
  | idx, line :: rest =>
    if skipLine line then procEntriesLoop idx rest
    else ⟨nameOf line, commandOf line, idx⟩ :: procEntriesLoop (idx + 1) rest

/-- The while-`read` loop of `run_procfile` on the Procfile's physical
lines: `read` joins continuation lines, removes backslash escapes and trims
unescaped whitespace, and the loop body runs once per logical line. -/
def procEntriesAux (idx : Nat) (stream : List (List Char)) : List Entry :=
  procEntriesLoop idx ((logicalLines stream).map trimContent)

/-- The ordered entries of a Procfile given as a list of physical lines. -/
def procEntries (lines : List (List Char)) : List Entry := procEntriesAux 1 lines

/-- Line 61, `color="$((31 + (index % 7)))"`. -/
def colorOf (index : Nat) : Nat := 31 + index % 7

/-- Line 54, `max_length="${MAX_LOG_LINE_LENGTH:-500}"`; `none` models an
unset (or empty) `MAX_LOG_LINE_LENGTH` variable. -/
def maxLogLimit (env : Option Nat) : Nat := env.getD 500

/-- The ellipsis marker appended by line 71. -/
def ellipsisMarker : List Char := '.' :: '.' :: '.' :: []

/-- One formatted record emitted by `log` for one line of child output. -/
structure LogRecord where
  timestamp : List Char
  name : List Char
  message : List Char
deriving DecidableEq

/-- Lines 65–76 of `log`, for one line read from the child: the timestamp is
sampled at read time, data longer than `max_length` is cut to its first
`max_length` characters plus `...`, and the record is emitted. -/
def logLine (name timestamp : List Char) (maxEnv : Option Nat) (data : List Char) : LogRecord :=
  let maxLen := maxLogLimit maxEnv
  ⟨timestamp, name, if data.length > maxLen then data.take maxLen ++ ellipsisMarker else data⟩

/-- Line 104's `grep "^[^#]*=.*"`: the anchored pattern matches exactly when
some prefix of non-`#` characters is followed by `=`. -/
def envSelected (l : List Char) : Bool := (l.takeWhile (fun c => !(c == '#'))).contains '='

/-- Split into whitespace-separated words, as `xargs` does for quote-free
input before the words reach `export`. -/
def splitWordsAux (cur : List Char) : List Char → List (List Char)
  | [] => if cur.isEmpty then [] else [cur.reverse]
  | c :: rest =>
    if isIFSSpace c then
      if cur.isEmpty then splitWordsAux [] rest else cur.reverse :: splitWordsAux [] rest
    else splitWordsAux (c :: cur) rest

/-- All whitespace-separated words of a line. -/
def splitWords (l : List Char) : List (List Char) := splitWordsAux [] l

/-- `export KEY=VALUE`: split a word at its first `=`. -/
def parseAssign (w : List Char) : List Char × List Char :=
  (w.takeWhile (fun c => !(c == '=')), (w.dropWhile (fun c => !(c == '='))).tail)

/-- The assignments performed by line 104, in order: the words of the
selected lines that contain `=` (a word without `=` only re-exports an
existing variable and changes no value). -/
def envFileAssigns (lines : List (List Char)) : List (List Char × List Char) :=
  ((((lines.filter envSelected).map splitWords).flatten).filter fun w => w.contains '=').map
    parseAssign

/-- An environment: later bindings are pushed on the front, lookup takes the
frontmost (most recent) binding. -/
abbrev EnvMap := List (List Char × List Char)

/-- Look a key up in an environment. -/
def envLookup : EnvMap → List Char → Option (List Char)
  | [], _ => none
  | (k, v) :: rest, key => if k == key then some v else envLookup rest key

/-- Lines 100–106, `load_env_file`: a missing file is no error and changes
nothing; otherwise the selected assignments are exported left to right.
Scope: the selected lines are assumed to consist of well-formed `KEY=VALUE`
words; a selected line carrying a word that is neither an assignment nor a
valid identifier (e.g. a trailing `# note` after the assignment) would make
`export` fail and, under `set -e`, abort the whole run before any child
spawns — the scenarios treated here stay within the well-formed case. -/
def loadEnvFile (envFile : Option (List (List Char))) (env : EnvMap) : EnvMap :=
  match envFile with
  | none => env
  | some lines => (envFileAssigns lines).foldl (fun e kv => kv :: e) env

/-- The pattern matches at the front of the subject. -/
def matchesAt : List Char → List Char → Bool
  | [], _ => true
  | _ :: _, [] => false
  | p :: ps, c :: cs => p == c && matchesAt ps cs

/-- The pattern occurs somewhere in the subject: line 148's
`expr "$*" : ".*--help"` succeeds exactly when the joined argument string
contains `--help` as a substring. -/
def containsPat (pat : List Char) : List Char → Bool
  | [] => matchesAt pat []
  | c :: rest => matchesAt pat (c :: rest) || containsPat pat rest

/-- `"$*"`: the arguments joined with single spaces. -/
def spaceJoin : List String → List Char
  | [] => []
  | [a] => a.toList
  | a :: b :: rest => a.toList ++ ' ' :: spaceJoin (b :: rest)

/-- Lines 147–151: the usage-and-exit branch is taken exactly when the
space-joined arguments contain `--help`. -/
def helpRequested (args : List String) : Bool := containsPat ("--help".toList) (spaceJoin args)

/-- Lines 182–186, `exitcode=0; for pid in $pids; do wait "${pid}" 2> /dev/null
|| exitcode=$?; done`: the accumulator is overwritten by every non-zero
child exit, taken in spawn order. -/
def aggregateExit (codes : List Nat) : Nat :=
  codes.foldl (fun acc c => if c == 0 then acc else c) 0

/-- A spawned child (the spec's ManagedProcess): its entry, the color `log`
computes from the entry's index when colors are enabled, the environment it
inherits, and its eventual exit code. -/
structure Spawned where
  entry : Entry
  color : Nat
  env : EnvMap
  exitCode : Nat
deriving DecidableEq

/-- `start_command` applied to each entry in manifest order: every child
inherits the process-wide environment as of spawn time, and its exit code is
drawn from the oracle giving what each command eventually returns. -/
def spawn : List Entry → EnvMap → List Nat → List Spawned
  | [], _, _ => []
  | e :: es, env, oracle =>
    ⟨e, colorOf e.index, env, oracle.headD 0⟩ :: spawn es env oracle.tail

/-- One run's externals: the arguments, the supervisor's own pid, the
pre-existing guard file and which pids are alive, whether `dev.log` exists,
the contents of the env file and of the Procfile (`none` = file missing or
unreadable), the children's exit codes in spawn order, and the inherited
environment. -/
structure Scenario where
  args : List String
  selfPid : Nat
  guardExists : Bool
  guardPid : Nat
  alivePids : List Nat
  devLogExists : Bool
  envFileLines : Option (List (List Char))
  procfileLines : Option (List (List Char))
  exitOracle : List Nat
  initialEnv : EnvMap
deriving DecidableEq

/-- Line 156's `kill -0 "$existing_pid"` succeeding: the guard file exists
and the pid recorded in it is alive. -/
def guardLive (s : Scenario) : Bool := s.guardExists && s.alivePids.contains s.guardPid

/-- How the supervisor process ends. -/
inductive Outcome where
  | helpExit
  | alreadyRunning
  | manifestError
  | completed
deriving DecidableEq

/-- Observable result of one run of `main`: the outcome, the exit status,
whether the guard check at line 154 was reached, whether a stale guard was
removed, the pid written to `.shoreman.pid` (if reached), the guard file
content at process exit, whether `dev.log` was rotated to `dev-prev.log`,
whether the fresh `dev.log` was initialised, and the spawned children. -/
structure MainResult where
  outcome : Outcome
  exitCode : Nat
  guardChecked : Bool
  staleRemoved : Bool
  guardWrittenPid : Option Nat
  guardFile : Option Nat
  rotated : Bool
  logInitialized : Bool
  children : List Spawned
deriving DecidableEq

/-- Lines 142–192, `main`, in order: `--help` short-circuits before the guard
check (line 148); a live guard aborts with exit 1 before any rotation or
spawning (lines 154–159); a stale guard is removed (line 161); the
supervisor's pid is written to `.shoreman.pid` (line 165); logs are rotated
(lines 168–175); the env file is loaded (line 177); the Procfile is parsed
and its entries spawned (line 178); all children are waited on and the guard
removed on the normal path (lines 182–189).  When `run_procfile` aborts
under `set -e` (unreadable Procfile) no trap is installed yet — `trap onexit
INT TERM` runs only at line 180 and EXIT is never trapped — so the freshly
written guard file survives that error exit. -/
def mainRun (s : Scenario) : MainResult :=
  if helpRequested s.args then
    ⟨.helpExit, 0, false, false, none, if s.guardExists then some s.guardPid else none,
      false, false, []⟩
  else if guardLive s then
    ⟨.alreadyRunning, 1, true, false, none, some s.guardPid, false, false, []⟩
  else
    match s.procfileLines with
    | none =>
      ⟨.manifestError, 1, true, s.guardExists, some s.selfPid, some s.selfPid,
        s.devLogExists, true, []⟩
    | some lines =>
      let children :=
        spawn (procEntries lines) (loadEnvFile s.envFileLines s.initialEnv) s.exitOracle
      ⟨.completed, aggregateExit (children.map Spawned.exitCode), true, s.guardExists,
        some s.selfPid, none, s.devLogExists, true, children⟩

/-- The skip condition as the claim words it, its word _empty_ read as a
blank line (one containing no non-whitespace character): the line is blank
or its first non-whitespace character is `#`. -/
def specSkip (raw : List Char) : Bool :=
  (raw.dropWhile isIFSSpace).isEmpty || (raw.dropWhile isIFSSpace).head? == some '#'

/-- The command C7 describes for a line: everything after the first `:`,
with exactly one leading space stripped. -/
def specCommand (l : List Char) : List Char :=
  let rem := (l.dropWhile (fun c => !(c == ':'))).tail
  if rem.head? == some ' ' then rem.tail else rem

/-- The candidate final exit code C1 describes: the first non-zero exit
code in spawn order, else 0. -/
def firstNonZero (codes : List Nat) : Nat := (codes.find? (fun c => c != 0)).getD 0

/-- The amended candidate: the last non-zero exit code in spawn order,
else 0. -/
def lastNonZero (codes : List Nat) : Nat := (codes.reverse.find? (fun c => c != 0)).getD 0

/-- The 7-color palette in the rotation order C3's 1-based color index
refers to: entry 1 wears the first color (green, 32) and the cycle closes
with red (31). -/
def specPalette : List Nat := [32, 33, 34, 35, 36, 37, 31]

/-- C9's side condition: the line contains a `:` immediately followed by a
whitespace character. -/
def containsColonWS : List Char → Bool
  | [] => false
  | c :: rest =>
    (c == ':' && (match rest.head? with | some d => isPatSpace d | none => false))
      || containsColonWS rest

/-- A run with two entries whose commands exit 3 and 5. -/
def scTwoFail : Scenario :=
  ⟨["Procfile"], 77, false, 0, [], false, none, some ["a: x".toList, "b: y".toList], [3, 5], []⟩

/-- A run against a missing Procfile, with no pre-existing guard. -/
def scNoManifest : Scenario :=
  ⟨["missing.Procfile"], 4242, false, 0, [], false, none, none, [], []⟩

/-- A second instance started while the guard file records a live pid. -/
def scGuardLive : Scenario :=
  ⟨["Procfile"], 78, true, 123, [123], true, none, some ["web: x".toList], [], []⟩

/-- A `--help` buried inside a positional path. -/
def scHelp : Scenario :=
  ⟨["my--helpful.Procfile"], 80, true, 123, [123], true, none, some ["web: x".toList], [], []⟩

/-- An env file containing `FOO=bar` and a one-entry Procfile. -/
def scEnvDemo : Scenario :=
  ⟨["Procfile", ".env"], 81, false, 0, [], false, some ["FOO=bar".toList],
    some ["web: x".toList], [], []⟩

/-- The child `scEnvDemo` spawns. -/
def scEnvChild : Spawned :=
  ⟨⟨"web".toList, "x".toList, 1⟩, 32, [("FOO".toList, "bar".toList)], 0⟩

/-- Dropping a non-matching last element commutes with `dropWhile`. -/
lemma dropWhile_append_singleton (p : Char → Bool) (xs : List Char) (c : Char)
    (h : p c = false) : (xs ++ [c]).dropWhile p = xs.dropWhile p ++ [c] := by
  induction xs with
  | nil => simp [List.dropWhile_cons, h]
  | cons x xs ih =>
    by_cases hx : p x = true
    · simpa [List.dropWhile_cons, hx] using ih
    · simp [List.dropWhile_cons, hx]

/-- `dropTrailing` keeps a non-whitespace head. -/
lemma dropTrailing_cons (c : Char) (l : List Char) (h : isIFSSpace c = false) :
    dropTrailing (c :: l) = c :: dropTrailing l := by
  unfold dropTrailing
  rw [List.reverse_cons, dropWhile_append_singleton _ _ _ h, List.reverse_append]
  simp

/-- The skip test the code applies to a whitespace-stripped line coincides
with the claim's condition on the raw characters. -/
lemma skip_stripIFS (raw : List Char) : skipLine (stripIFS raw) = specSkip raw := by
  induction raw with
  | nil => rfl
  | cons c rest ih =>
    cases hc : isIFSSpace c with
    | true =>
      have h1 : stripIFS (c :: rest) = stripIFS rest := by
        simp [stripIFS, List.dropWhile_cons, hc]
      have h2 : specSkip (c :: rest) = specSkip rest := by
        simp [specSkip, List.dropWhile_cons, hc]
      rw [h1, h2, ih]
    | false =>
      have h1 : stripIFS (c :: rest) = c :: dropTrailing rest := by
        simp [stripIFS, List.dropWhile_cons, hc, dropTrailing_cons c rest hc]
      rw [h1]
      simp [skipLine, specSkip, List.dropWhile_cons, hc]

/-- Without backslashes, escape removal is the identity and asks for no
continuation. -/
lemma readCharsAux_noBS (raw : List Char) (hb : '\\' ∉ raw) :
    readCharsAux false raw = (raw.map (fun c => (c, false)), false) := by
  induction raw with
  | nil => rfl
  | cons c rest ih =>
    have hc : ¬c = '\\' := fun h => hb (by simp [h])
    have hrest : '\\' ∉ rest := fun h => hb (List.mem_cons_of_mem _ h)
    have hcb : (c == '\\') = false := by simp [hc]
    simp [readCharsAux, hcb, ih hrest]

/-- `readChars` form of the previous lemma. -/
lemma readChars_noBS (raw : List Char) (hb : '\\' ∉ raw) :
    readChars raw = (raw.map (fun c => (c, false)), false) :=
  readCharsAux_noBS raw hb

/-- On unescaped characters the trim predicate is plain IFS whitespace. -/
lemma dropWhile_map_false (raw : List Char) :
    (raw.map (fun c => (c, false))).dropWhile isUnescapedSpace
      = (raw.dropWhile isIFSSpace).map (fun c => (c, false)) := by
  induction raw with
  | nil => rfl
  | cons c rest ih =>
    cases hc : isIFSSpace c with
    | true => simpa [List.dropWhile_cons, isUnescapedSpace, hc] using ih
    | false => simp [List.dropWhile_cons, isUnescapedSpace, hc]

/-- On a backslash-free line, `read`'s trimming is plain whitespace
stripping. -/
lemma trimContent_map (raw : List Char) :
    trimContent (raw.map (fun c => (c, false))) = stripIFS raw := by
  rw [trimContent, dropWhile_map_false, ← List.map_reverse, dropWhile_map_false,
    ← List.map_reverse, List.map_map]
  have hid : (Prod.fst ∘ fun c : Char => ((c, false) : Char × Bool)) = id := rfl
  simp [stripIFS, dropTrailing, hid]

/-- A backslash-free head line is its own logical line. -/
lemma logicalLines_noBS (raw : List Char) (rest : List (List Char)) (hb : '\\' ∉ raw) :
    logicalLines (raw :: rest) = raw.map (fun c => (c, false)) :: logicalLines rest := by
  simp [logicalLines, readChars_noBS raw hb]

/-- On a backslash-free line, `read` only strips surrounding whitespace. -/
lemma readLine_noBS (raw : List Char) (hb : '\\' ∉ raw) : readLine raw = stripIFS raw := by
  rw [readLine, readChars_noBS raw hb]
  exact trimContent_map raw

/-- Unfolding `readCharsAux` in the no-pending-backslash state. -/
lemma readCharsAux_false_cons (c : Char) (rest : List Char) :
    readCharsAux false (c :: rest)
      = if c == '\\' then readCharsAux true rest
        else ((c, false) :: (readCharsAux false rest).1, (readCharsAux false rest).2) := by
  rw [readCharsAux]

/-- Escape removal never lengthens a line. -/
lemma readCharsAux_length (raw : List Char) :
    ∀ esc, (readCharsAux esc raw).1.length ≤ raw.length := by
  induction raw with
  | nil => intro esc; simp [readCharsAux]
  | cons c rest ih =>
    intro esc
    cases esc with
    | true =>
      have h := ih false
      simp only [readCharsAux, List.length_cons]
      omega
    | false =>
      by_cases hc : (c == '\\') = true
      · have h := ih true
        rw [readCharsAux_false_cons, if_pos hc]
        simp only [List.length_cons]
        omega
      · have h := ih false
        rw [readCharsAux_false_cons, if_neg hc]
        simp only [List.length_cons]
        omega

/-- A backslash strictly shortens the processed line. -/
lemma readChars_mem_length (raw : List Char) (hb : '\\' ∈ raw) :
    (readChars raw).1.length < raw.length := by
  induction raw with
  | nil => simp at hb
  | cons c rest ih =>
    by_cases hc : (c == '\\') = true
    · have h := readCharsAux_length rest true
      rw [readChars, readCharsAux_false_cons, if_pos hc]
      simp only [List.length_cons]
      omega
    · have hcb : ¬c = '\\' := by simpa using hc
      have hrest : '\\' ∈ rest := by
        rcases List.mem_cons.mp hb with h | h
        · exact absurd h.symm hcb
        · exact h
      have h := ih hrest
      rw [readChars] at h
      rw [readChars, readCharsAux_false_cons, if_neg hc]
      simp only [List.length_cons]
      omega

/-- Trimming never lengthens the content. -/
lemma trimContent_length (l : List (Char × Bool)) : (trimContent l).length ≤ l.length := by
  calc (trimContent l).length
      = ((l.dropWhile isUnescapedSpace).reverse.dropWhile isUnescapedSpace).length := by
        simp [trimContent]
    _ ≤ (l.dropWhile isUnescapedSpace).reverse.length :=
        (List.dropWhile_sublist _).length_le
    _ = (l.dropWhile isUnescapedSpace).length := List.length_reverse _
    _ ≤ l.length := (List.dropWhile_sublist _).length_le

/-- A line that `read` leaves untouched contains no backslash. -/
lemma readLine_self_noBS (line : List Char) (h : readLine line = line) : '\\' ∉ line := by
  intro hmem
  have h1 : (trimContent (readChars line).1).length ≤ (readChars line).1.length :=
    trimContent_length _
  have h2 : (readChars line).1.length < line.length := readChars_mem_length line hmem
  have h3 : (readLine line).length = line.length := by rw [h]
  rw [readLine] at h3
  omega

/-- Unfolding one parser iteration on a backslash-free head line. -/
lemma procEntriesAux_cons_noBS (idx : Nat) (raw : List Char) (rest : List (List Char))
    (hb : '\\' ∉ raw) :
    procEntriesAux idx (raw :: rest)
      = if skipLine (stripIFS raw) then procEntriesAux idx rest
        else ⟨nameOf (stripIFS raw), commandOf (stripIFS raw), idx⟩
            :: procEntriesAux (idx + 1) rest := by
  rw [procEntriesAux, logicalLines_noBS raw rest hb, List.map_cons, trimContent_map,
    procEntriesLoop]
  rfl

/-- The wait-loop accumulator computes the last non-zero element. -/
lemma foldl_exit (codes : List Nat) (a : Nat) :
    codes.foldl (fun acc c => if c == 0 then acc else c) a
      = (codes.reverse.find? (fun c => c != 0)).getD a := by
  induction codes generalizing a with
  | nil => rfl
  | cons c cs ih =>
    rw [List.foldl_cons, ih, List.reverse_cons, List.find?_append]
    rcases h : cs.reverse.find? (fun c => c != 0) with _ | x
    · by_cases hc : c = 0
      · simp [h, hc, List.find?]
      · have hb : (c != 0) = true := by simpa using hc
        simp [h, hc, List.find?, hb]
    · simp [h]

/-- `aggregateExit` (the shell wait loop) equals the last non-zero exit
code in spawn order. -/
lemma aggregateExit_eq_lastNonZero (codes : List Nat) :
    aggregateExit codes = lastNonZero codes := foldl_exit codes 0

/-- Lookup distributes over appended environments. -/
lemma envLookup_append (xs ys : EnvMap) (k : List Char) :
    envLookup (xs ++ ys) k = (envLookup xs k).or (envLookup ys k) := by
  induction xs with
  | nil => simp [envLookup]
  | cons kv rest ih =>
    obtain ⟨k1, v1⟩ := kv
    by_cases h : (k1 == k) = true
    · simp [envLookup, h]
    · simp [envLookup, h, ih]

/-- Folding prepends reverses the assignment list onto the environment. -/
lemma foldl_prepend (l : List (List Char × List Char)) (env : EnvMap) :
    l.foldl (fun e kv => kv :: e) env = l.reverse ++ env := by
  induction l generalizing env with
  | nil => rfl
  | cons kv rest ih =>
    rw [List.foldl_cons, ih, List.reverse_cons]
    simp

/-- Spawning makes one child per entry. -/
lemma spawn_length (es : List Entry) (env : EnvMap) (oracle : List Nat) :
    (spawn es env oracle).length = es.length := by
  induction es generalizing oracle with
  | nil => rfl
  | cons e es ih => simp [spawn, ih]

/-- Every spawned child wears the color `log` derives from its entry's
index and inherits the spawning environment. -/
lemma spawn_mem (es : List Entry) (env : EnvMap) (oracle : List Nat) (c : Spawned)
    (hc : c ∈ spawn es env oracle) :
    c.entry ∈ es ∧ c.color = colorOf c.entry.index ∧ c.env = env := by
  induction es generalizing oracle with
  | nil => simp [spawn] at hc
  | cons e es ih =>
    rw [spawn, List.mem_cons] at hc
    rcases hc with h | h
    · subst h
      simp
    · obtain ⟨h1, h2, h3⟩ := ih _ h
      exact ⟨List.mem_cons_of_mem _ h1, h2, h3⟩

/-- Indices assigned by the loop never fall below the running counter. -/
lemma procEntriesLoop_index_ge (lines : List (List Char)) (idx : Nat) (e : Entry)
    (he : e ∈ procEntriesLoop idx lines) : idx ≤ e.index := by
  induction lines generalizing idx with
  | nil => simp [procEntriesLoop] at he
  | cons line rest ih =>
    by_cases h : skipLine line = true
    · rw [procEntriesLoop, if_pos h] at he
      exact ih _ he
    · rw [procEntriesLoop, if_neg h, List.mem_cons] at he
      rcases he with he | he
      · subst he
        exact Nat.le_refl _
      · exact Nat.le_of_succ_le (ih _ he)

/-- Indices assigned by the parser never fall below the running counter. -/
lemma procEntriesAux_index_ge (lines : List (List Char)) (idx : Nat) (e : Entry)
    (he : e ∈ procEntriesAux idx lines) : idx ≤ e.index :=
  procEntriesLoop_index_ge _ idx e he

/-- The code's color for entry index `i ≥ 1` is the `1 + ((i-1) mod 7)`-th
color of the rotation-order palette. -/
lemma colorOf_palette (i : Nat) (hi : 1 ≤ i) :
    colorOf i = specPalette.getD ((1 + ((i - 1) % 7)) - 1) 0 := by
  have h1 : (1 + ((i - 1) % 7)) - 1 = (i - 1) % 7 := by omega
  rw [h1]
  have h2 : (i - 1) % 7 < 7 := Nat.mod_lt _ (by norm_num)
  have h3 : i % 7 = ((i - 1) % 7 + 1) % 7 := by omega
  show 31 + i % 7 = specPalette.getD ((i - 1) % 7) 0
  rw [h3]
  set r := (i - 1) % 7 with hr
  interval_cases r <;> rfl

/-- Unfolding `mainRun` on a run that starts and completes normally. -/
lemma mainRun_ok (s : Scenario) (lines : List (List Char))
    (hh : helpRequested s.args = false) (hg : guardLive s = false)
    (hp : s.procfileLines = some lines) :
    mainRun s =
      ⟨.completed,
        aggregateExit
          ((spawn (procEntries lines) (loadEnvFile s.envFileLines s.initialEnv)
              s.exitOracle).map Spawned.exitCode),
        true, s.guardExists, some s.selfPid, none, s.devLogExists, true,
        spawn (procEntries lines) (loadEnvFile s.envFileLines s.initialEnv) s.exitOracle⟩ := by
  simp [mainRun, hh, hg, hp]

/-- Every child of any run inherits the environment `load_env_file` built. -/
lemma mainRun_child_env (s : Scenario) (c : Spawned)
    (hc : c ∈ (mainRun s).children) :
    c.env = loadEnvFile s.envFileLines s.initialEnv := by
  unfold mainRun at hc
  by_cases hh : helpRequested s.args = true
  · simp [hh] at hc
  · by_cases hg : guardLive s = true
    · simp [hh, hg] at hc
    · rcases hp : s.procfileLines with _ | lines
      · simp [hh, hg, hp] at hc
      · simp only [hh, hg, hp, Bool.not_eq_true] at hc
        simp only [Bool.false_eq_true, if_false, if_neg] at hc
        exact (spawn_mem _ _ _ c (by simpa using hc)).2.2

/-- `${line%%:*}` returns a colon-free prefix unchanged. -/
lemma nameOf_append (pre rest : List Char) (hpre : ':' ∉ pre) :
    nameOf (pre ++ ':' :: rest) = pre := by
  induction pre with
  | nil => simp [nameOf, List.takeWhile_cons]
  | cons x xs ih =>
    have hx : ¬x = ':' := fun h => hpre (by simp [h])
    have hxs : ':' ∉ xs := fun h => hpre (List.mem_cons_of_mem _ h)
    have hb : (!(x == ':')) = true := by simp [hx]
    have h2 : nameOf ((x :: xs) ++ ':' :: rest) = x :: nameOf (xs ++ ':' :: rest) := by
      simp [nameOf, List.takeWhile_cons, hb]
    rw [h2, ih hxs]

/-- `takeWhile` keeps a wholly colon-free line. -/
lemma nameOf_noColon (l : List Char) (h : ':' ∉ l) : nameOf l = l := by
  induction l with
  | nil => rfl
  | cons x xs ih =>
    have hx : ¬x = ':' := fun hh => h (by simp [hh])
    have hxs : ':' ∉ xs := fun hh => h (List.mem_cons_of_mem _ hh)
    simp [nameOf, List.takeWhile_cons, hx]
    simpa [nameOf] using ih hxs

/-- Scanning across a colon-free prefix lands on the explicit
colon-whitespace pair. -/
lemma afterColonSpace_append (pre post : List Char) (c : Char)
    (hpre : ':' ∉ pre) (hc : isPatSpace c = true) :
    afterColonSpace (pre ++ ':' :: c :: post) = some post := by
  induction pre with
  | nil => simp [afterColonSpace, hc]
  | cons x xs ih =>
    have hx : ¬x = ':' := fun h => hpre (by simp [h])
    have hxs : ':' ∉ xs := fun h => hpre (List.mem_cons_of_mem _ h)
    simpa [afterColonSpace, hx] using ih hxs

/-- Without a colon-whitespace pair the scan fails. -/
lemma afterColonSpace_none (l : List Char) (h : containsColonWS l = false) :
    afterColonSpace l = none := by
  induction l with
  | nil => rfl
  | cons c rest ih =>
    rw [containsColonWS, Bool.or_eq_false_iff] at h
    cases hc : (c == ':') with
    | false => simpa [afterColonSpace, hc] using ih h.2
    | true =>
      rcases rest with _ | ⟨d, r2⟩
      · simp [afterColonSpace, hc]
      · have hd : isPatSpace d = false := by
          have h1 := h.1
          simpa [hc] using h1
        simpa [afterColonSpace, hc, hd] using ih h.2

/-- C1 (counterexample): with children exiting 3 then 5 in spawn order, the
supervisor's final exit status is 5 — the last non-zero exit code — and not
the first non-zero exit code 3 the claim demands. -/
theorem C1_first_nonzero_cex :
    (mainRun scTwoFail).exitCode = 5 ∧
      firstNonZero ((mainRun scTwoFail).children.map Spawned.exitCode) = 3 ∧
      (mainRun scTwoFail).exitCode
        ≠ firstNonZero ((mainRun scTwoFail).children.map Spawned.exitCode) := by
  decide

/-- C1 (amended): for every run that completes normally (`--help` absent, no
live guard, readable Procfile) and waits on all children, the final exit
status equals the LAST non-zero exit code among the children in spawn order,
and 0 when every child exits cleanly — a later zero exit never overrides an
earlier non-zero candidate, but a later non-zero exit replaces it. -/
theorem C1_last_nonzero_exit (s : Scenario) (lines : List (List Char))
    (hh : helpRequested s.args = false) (hg : guardLive s = false)
    (hp : s.procfileLines = some lines) :
    (mainRun s).exitCode = lastNonZero ((mainRun s).children.map Spawned.exitCode) ∧
      ((∀ c ∈ (mainRun s).children, c.exitCode = 0) → (mainRun s).exitCode = 0) := by
  rw [mainRun_ok s lines hh hg hp]
  refine ⟨aggregateExit_eq_lastNonZero _, ?_⟩
  intro hz
  rw [aggregateExit_eq_lastNonZero, lastNonZero, List.find?_eq_none.mpr]
  · rfl
  · intro x hx
    rw [List.mem_reverse, List.mem_map] at hx
    obtain ⟨c, hc, hcx⟩ := hx
    have hz0 := hz c hc
    simp [← hcx, hz0]

/-- C1 (amended, witness): the two-child run exiting 3 then 5 instantiates
the amended statement. -/
theorem C1_last_nonzero_exit_witness :
    (mainRun scTwoFail).exitCode
      = lastNonZero ((mainRun scTwoFail).children.map Spawned.exitCode) :=
  (C1_last_nonzero_exit scTwoFail ["a: x".toList, "b: y".toList]
    (by decide) (by decide) rfl).1

/-- C2: at the failing input — no pre-existing guard, a Procfile that cannot
be read — the run dies through `set -e` before `trap onexit INT TERM`
(line 180) has executed, and EXIT is never trapped, so the guard file
written at line 165 still holds the supervisor's pid when the process exits
non-zero, although `onexit`'s own comment promises cleanup on EXIT and the
spec demands deletion on every exit path. -/
theorem C2_guard_survives_error_exit :
    (mainRun scNoManifest).outcome = Outcome.manifestError ∧
      (mainRun scNoManifest).guardWrittenPid = some 4242 ∧
      (mainRun scNoManifest).guardFile = some 4242 ∧
      (mainRun scNoManifest).exitCode = 1 := by
  decide

/-- C3: a run that starts normally spawns exactly one child per manifest
entry, and the child of entry index i is assigned terminal color code
`31 + (i mod 7)` — the `1 + ((i-1) mod 7)`-th color of the 7-color palette
taken in its rotation order (`specPalette`) — computed from the entry's
index alone. -/
theorem C3_spawn_count_colors (s : Scenario) (lines : List (List Char))
    (hh : helpRequested s.args = false) (hg : guardLive s = false)
    (hp : s.procfileLines = some lines) :
    (mainRun s).children.length = (procEntries lines).length ∧
      ∀ c ∈ (mainRun s).children,
        c.color = 31 + c.entry.index % 7 ∧
          c.color = specPalette.getD ((1 + ((c.entry.index - 1) % 7)) - 1) 0 := by
  rw [mainRun_ok s lines hh hg hp]
  refine ⟨spawn_length _ _ _, ?_⟩
  intro c hc
  obtain ⟨hmem, hcol, _⟩ := spawn_mem _ _ _ c hc
  have hi : 1 ≤ c.entry.index := procEntriesAux_index_ge lines 1 c.entry hmem
  exact ⟨hcol.trans rfl, hcol.trans (colorOf_palette _ hi)⟩

/-- C3 (witness): the two-entry run spawns exactly two children. -/
theorem C3_spawn_count_colors_witness :
    (mainRun scTwoFail).children.length
      = (procEntries ["a: x".toList, "b: y".toList]).length :=
  (C3_spawn_count_colors scTwoFail ["a: x".toList, "b: y".toList]
    (by decide) (by decide) rfl).1

/-- C4 (counterexample): plain `read` removes backslash escapes, so the
physical line `\#x` — neither empty nor blank, with `\` as its first
non-whitespace character — reaches the skip test as `#x` and is skipped: it
yields no entry and does not advance the running index, refuting the
claim's `exactly when`. -/
theorem C4_backslash_cex :
    specSkip ("\\#x".toList) = false ∧
      procEntriesAux 1 ["\\#x".toList, "web: x".toList]
        = procEntriesAux 1 ["web: x".toList] := by
  decide

/-- C4 (amended): for every manifest line containing no backslash — lines
with backslashes are first rewritten by plain `read`'s escape removal and
line joining — the parser skips the line exactly when it is blank (no
non-whitespace character) or its first non-whitespace character is `#`; a
skipped line yields no entry, spawns no child, and leaves the running index
unchanged for subsequent entries, while an unskipped line yields exactly one
entry at the current index. -/
theorem C4_skip_rule (idx : Nat) (raw : List Char) (rest : List (List Char))
    (hb : '\\' ∉ raw) :
    (specSkip raw = true →
        procEntriesAux idx (raw :: rest) = procEntriesAux idx rest ∧
          ∀ env oracle,
            spawn (procEntriesAux idx (raw :: rest)) env oracle
              = spawn (procEntriesAux idx rest) env oracle) ∧
      (specSkip raw = false →
        procEntriesAux idx (raw :: rest)
          = ⟨nameOf (readLine raw), commandOf (readLine raw), idx⟩
              :: procEntriesAux (idx + 1) rest) := by
  have hro := procEntriesAux_cons_noBS idx raw rest hb
  constructor
  · intro h
    have hs : skipLine (stripIFS raw) = true := (skip_stripIFS raw).trans h
    have he : procEntriesAux idx (raw :: rest) = procEntriesAux idx rest := by
      rw [hro, if_pos hs]
    exact ⟨he, fun env oracle => by rw [he]⟩
  · intro h
    have hs : skipLine (stripIFS raw) = false := (skip_stripIFS raw).trans h
    rw [hro, if_neg (by simp [hs]), readLine_noBS raw hb]

/-- C4 (amended, witness): an indented comment line is skipped and produces
no entry. -/
theorem C4_skip_rule_witness :
    procEntriesAux 1 ["  # build".toList] = procEntriesAux 1 [] :=
  ((C4_skip_rule 1 ("  # build".toList) [] (by decide)).1 (by decide)).1

/-- C5: with `--help` absent and a guard file present, a recorded live pid
makes the run fail immediately — exit status 1, no children, no log
rotation, no pid written, the existing guard untouched — while a recorded
dead pid makes the run remove the stale guard, write its own pid, and
proceed past the already-running abort. -/
theorem C5_single_instance (s : Scenario) (hh : helpRequested s.args = false)
    (hg : s.guardExists = true) :
    (s.alivePids.contains s.guardPid = true →
        (mainRun s).outcome = Outcome.alreadyRunning ∧ (mainRun s).exitCode = 1 ∧
          (mainRun s).children = [] ∧ (mainRun s).rotated = false ∧
          (mainRun s).logInitialized = false ∧ (mainRun s).guardWrittenPid = none ∧
          (mainRun s).guardFile = some s.guardPid) ∧
      (s.alivePids.contains s.guardPid = false →
        (mainRun s).staleRemoved = true ∧
          (mainRun s).guardWrittenPid = some s.selfPid ∧
          (mainRun s).outcome ≠ Outcome.alreadyRunning) := by
  constructor
  · intro ha
    have hl : guardLive s = true := by rw [guardLive, hg, ha]; rfl
    simp [mainRun, hh, hl]
  · intro ha
    have hl : guardLive s = false := by rw [guardLive, ha, Bool.and_false]
    rcases hp : s.procfileLines with _ | lines <;> simp [mainRun, hh, hl, hp, hg]

/-- C5 (witness): a second instance against a live guard aborts. -/
theorem C5_single_instance_witness :
    (mainRun scGuardLive).outcome = Outcome.alreadyRunning :=
  ((C5_single_instance scGuardLive (by decide) (by decide)).1 (by decide)).1

/-- C6: the message `log` emits is the input line unmodified when its length
is at most the limit (500 by default, configurable through
`MAX_LOG_LINE_LENGTH`), and the line's first `max` characters followed by
the fixed `...` marker — total length exactly `max + 3` — when longer. -/
theorem C6_truncation (nm ts : List Char) (maxEnv : Option Nat) (data : List Char) :
    ((logLine nm ts maxEnv data).message =
        if data.length > maxLogLimit maxEnv
        then data.take (maxLogLimit maxEnv) ++ ellipsisMarker else data) ∧
      ((logLine nm ts maxEnv data).message.length =
        if data.length > maxLogLimit maxEnv
        then maxLogLimit maxEnv + ellipsisMarker.length else data.length) ∧
      maxLogLimit none = 500 := by
  refine ⟨rfl, ?_, rfl⟩
  by_cases h : data.length > maxLogLimit maxEnv
  · simp only [logLine, if_pos h, List.length_append, List.length_take]
    have hmin : min (maxLogLimit maxEnv) data.length = maxLogLimit maxEnv := by omega
    rw [hmin]
  · simp [logLine, h]

/-- C7 (counterexample): on the manifest line `web:sleep 1` — no whitespace
after the colon — the code keeps the WHOLE line as the command, not the
remainder `sleep 1` after the first colon that the claim demands. -/
theorem C7_first_colon_cex :
    commandOf ("web:sleep 1".toList) = "web:sleep 1".toList ∧
      specCommand ("web:sleep 1".toList) = "sleep 1".toList ∧
      commandOf ("web:sleep 1".toList) ≠ specCommand ("web:sleep 1".toList) := by
  decide

/-- C7 (amended): for every line, as the parser sees it, whose first `:` is
immediately followed by a whitespace character, the parser splits at that
colon — name is everything left of the colon, command is the remainder with
exactly that one leading whitespace character stripped, no other trimming —
so `web: sleep 1` gives name `web` and command `sleep 1`; a line with no
colon-whitespace pair instead keeps the entire line as the command. -/
theorem C7_separator_split (pre post : List Char) (c : Char)
    (hpre : ':' ∉ pre) (hc : isPatSpace c = true) :
    nameOf (pre ++ ':' :: c :: post) = pre ∧
      commandOf (pre ++ ':' :: c :: post) = post := by
  refine ⟨nameOf_append pre (c :: post) hpre, ?_⟩
  rw [commandOf, afterColonSpace_append pre post c hpre hc]
  rfl

/-- C7 (amended, witness): `web: sleep 1` splits into `web` and
`sleep 1`. -/
theorem C7_separator_split_witness :
    nameOf ("web".toList ++ ':' :: ' ' :: "sleep 1".toList) = "web".toList ∧
      commandOf ("web".toList ++ ':' :: ' ' :: "sleep 1".toList) = "sleep 1".toList :=
  C7_separator_split ("web".toList) ("sleep 1".toList) ' ' (by decide) (by decide)

/-- C8: when the env file exists, the assignments of its non-comment
`KEY=VALUE` lines are merged into the process-wide environment before any
child spawns, so every spawned child observes the file's binding for each
assigned key; a missing env file is no error and every child inherits the
unchanged environment. -/
theorem C8_env_file (s : Scenario) :
    (∀ lines k v, s.envFileLines = some lines →
        envLookup ((envFileAssigns lines).reverse) k = some v →
        ∀ c ∈ (mainRun s).children, envLookup c.env k = some v) ∧
      (s.envFileLines = none → ∀ c ∈ (mainRun s).children, c.env = s.initialEnv) := by
  constructor
  · intro lines k v hf hv c hc
    rw [mainRun_child_env s c hc, hf]
    simp only [loadEnvFile]
    rw [foldl_prepend, envLookup_append, hv]
    rfl
  · intro hf c hc
    rw [mainRun_child_env s c hc, hf]
    rfl

/-- C8 (witness): with an env file containing `FOO=bar`, the spawned child
sees `FOO=bar`. -/
theorem C8_env_file_witness :
    envLookup scEnvChild.env ("FOO".toList) = some ("bar".toList) :=
  (C8_env_file scEnvDemo).1 ["FOO=bar".toList] ("FOO".toList) ("bar".toList)
    rfl (by decide) scEnvChild (by decide)

/-- C9: a non-skipped line containing no colon-followed-by-whitespace still
parses without error and yields exactly one entry (hence one child): its
command is the entire unsplit line, and when the line has no colon at all
its name is the entire line too.  (`hrd` says the line carries no
surrounding whitespace, so it is its own post-`read` form.) -/
theorem C9_no_separator (line : List Char) (rest : List (List Char)) (idx : Nat)
    (hcs : containsColonWS line = false) (hsk : specSkip line = false)
    (hrd : readLine line = line) :
    procEntriesAux idx (line :: rest)
        = ⟨nameOf line, commandOf line, idx⟩ :: procEntriesAux (idx + 1) rest ∧
      commandOf line = line ∧ (':' ∉ line → nameOf line = line) := by
  have hb : '\\' ∉ line := readLine_self_noBS line hrd
  have hstrip : stripIFS line = line := (readLine_noBS line hb).symm.trans hrd
  have hs : skipLine (stripIFS line) = false := (skip_stripIFS line).trans hsk
  refine ⟨?_, ?_, fun h => nameOf_noColon line h⟩
  · rw [procEntriesAux_cons_noBS idx line rest hb, if_neg (by simp [hs]), hstrip]
  · rw [commandOf, afterColonSpace_none line hcs]
    rfl

/-- C9 (witness): the colon-free line `make all` becomes both the name and
the command of its entry. -/
theorem C9_no_separator_witness :
    commandOf ("make all".toList) = "make all".toList ∧
      nameOf ("make all".toList) = "make all".toList := by
  have h := C9_no_separator ("make all".toList) [] 1 (by decide) (by decide) (by decide)
  exact ⟨h.2.1, h.2.2 (by decide)⟩

/-- C10: whenever the space-joined argument string contains `--help`
anywhere — also inside a positional path — the run prints usage and exits 0
before the guard-file check, before writing a guard file, and before any
log rotation: nothing is spawned and the guard file is left exactly as it
was. -/
theorem C10_help_anywhere (s : Scenario)
    (h : containsPat ("--help".toList) (spaceJoin s.args) = true) :
    (mainRun s).outcome = Outcome.helpExit ∧ (mainRun s).exitCode = 0 ∧
      (mainRun s).guardChecked = false ∧ (mainRun s).guardWrittenPid = none ∧
      (mainRun s).guardFile = (if s.guardExists then some s.guardPid else none) ∧
      (mainRun s).rotated = false ∧ (mainRun s).logInitialized = false ∧
      (mainRun s).children = [] := by
  have hh : helpRequested s.args = true := h
  simp [mainRun, hh]

/-- C10 (witness): `--help` hidden inside a positional path still triggers
the usage exit even though a live guard exists. -/
theorem C10_help_anywhere_witness :
    (mainRun scHelp).outcome = Outcome.helpExit :=
  (C10_help_anywhere scHelp (by decide)).1

end Shoreman
